import Mathlib

/-!
Shallow embedding of `praisonaiagents/memory/memory.py` (class `Memory`):
a dual-tier memory manager with a short-term and a long-term SQLite table,
an optional vector (ChromaDB) or external (mem0) backend, quality-score
gating, and a context assembler.

Modelling conventions:
* Python floats are modelled by `ℚ`; `round(x, 3)` by `round3`.
* Python dicts (metadata) are association lists with unique keys;
  `dictSet` mirrors Python assignment/`update` (replace in place, else append).
* The two SQLite tables are lists of rows in insertion order; the SQL query
  `SELECT ... WHERE content LIKE '%q%' LIMIT n` is `(filter (likeMatch q)) |>.take n`
  (SQLite `LIKE` is case-insensitive).
* External providers (mem0 search, OpenAI embedding + Chroma query) are
  oracles `String → Nat → Option _` stored in the `Memory` state; `none`
  models the provider call raising an exception.
* A Python function that may raise is embedded as `Except Unit _`;
  `.error ()` is an uncaught exception propagating to the caller.
* Success/failure of a SQLite write or of a secondary backend write is an
  explicit `Bool` argument (the embedding is parametric in which calls fail).
-/

namespace PraisonMem

/-! ### String helpers (Python / SQLite semantics) -/

/-- `startsWith pat cs`: `pat` is a leading segment of `cs`. -/
def startsWith : List Char → List Char → Bool
  | [], _ => true
  | _ :: _, [] => false
  | p :: ps, c :: cs => p == c && startsWith ps cs

/-- Python `pat in hay` (substring containment) over char lists. -/
def listContains (pat : List Char) : List Char → Bool
  | [] => pat.isEmpty
  | c :: cs => startsWith pat (c :: cs) || listContains pat cs

/-- Python `pat in hay` on strings. -/
def strContains (hay pat : String) : Bool :=
  listContains pat.data hay.data

/-- Lower-case every character (Python `str.lower` / SQLite `LIKE` folding). -/
def lowerStr (s : String) : String :=
  String.mk (s.data.map Char.toLower)

/-- SQLite `content LIKE '%query%'` (default `LIKE` is case-insensitive). -/
def likeMatch (query content : String) : Bool :=
  strContains (lowerStr content) (lowerStr query)

/-- The vector-path citation append in `search_long_term`
(`text = f"{text} (Memory record: {text})"`) — unconditional. -/
def citeAlways (t : String) : String :=
  t ++ " (Memory record: " ++ t ++ ")"

/-- The local-table citation append in `search_long_term`:
`if "(Memory record:" not in text: text = f"{text} (Memory record: {text})"`. -/
def citeIfAbsent (t : String) : String :=
  if strContains t "(Memory record:" then t else citeAlways t

/-- Python `str.strip()` over a char list. -/
def pyStrip (cs : List Char) : List Char :=
  ((cs.dropWhile Char.isWhitespace).reverse.dropWhile Char.isWhitespace).reverse

/-- Python `str.strip()` on strings. -/
def pyStripStr (s : String) : String :=
  String.mk (pyStrip s.data)

/-! ### Metadata: the Python dict model -/

/-- A metadata value: string, number, boolean, Python `None`, or a structured
value carried by its string representation (only ever stringified). -/
inductive MetaVal where
  | str (v : String)
  | num (v : ℚ)
  | bool (v : Bool)
  | nil
  | obj (repr : String)
  deriving DecidableEq

/-- A Python dict with string keys, as an association list with unique keys
in insertion order. -/
abbrev Metadata := List (String × MetaVal)

/-- Python `d.get(k)` / `d[k]` lookup. -/
def dictGet (md : Metadata) (k : String) : Option MetaVal :=
  (md.find? (fun p => p.1 == k)).map (fun p => p.2)

/-- Python `d[k] = v` (replace the existing entry in place, else append). -/
def dictSet : Metadata → String → MetaVal → Metadata
  | [], k, v => [(k, v)]
  | (k', v') :: rest, k, v =>
    if k' = k then (k, v) :: rest else (k', v') :: dictSet rest k v

/-! ### Data model -/

/-- One row of the `short_mem` / `long_mem` SQLite tables:
`(id TEXT PRIMARY KEY, content TEXT, meta TEXT, created_at REAL)`. -/
structure SqlRow where
  id : String
  content : String
  meta : Metadata
  created_at : ℚ
  deriving DecidableEq

/-- One hit returned by a ChromaDB `query` call (parallel arrays
`ids/documents/metadatas/distances`, transposed). -/
structure ChromaHit where
  id : String
  document : String
  metadata : Metadata
  distance : ℚ
  deriving DecidableEq

/-- A search-result dict as produced by the search methods: keys `id`, `text`,
`metadata`, and optionally `score` (backend paths) or `created_at` (local
path). An absent `metadata` key on a mem0 result is modelled by `[]`,
matching `r.get("metadata", {})`. -/
structure SearchRec where
  id : String
  text : String
  metadata : Metadata
  score : Option ℚ
  created_at : Option ℚ
  deriving DecidableEq

/-- The `Memory` manager state: configuration flags, the two SQLite tables,
the vector-store documents, and the external-provider oracles (`none` =
the provider call raises). -/
structure Memory where
  use_mem0 : Bool
  use_rag : Bool
  short_mem : List SqlRow
  long_mem : List SqlRow
  chroma_docs : List (String × String × Metadata)
  mem0_search : String → Nat → Option (List SearchRec)
  mem0_search_user : String → Nat → String → Option (List SearchRec)
  chroma_query : String → Nat → Option (List ChromaHit)

/-! ### Quality scorer -/

/-- A weights dict containing all four required keys. -/
structure Weights where
  completeness : ℚ
  relevance : ℚ
  clarity : ℚ
  accuracy : ℚ

/-- Python `round(x, 3)`. -/
def round3 (x : ℚ) : ℚ :=
  (round (x * 1000) : ℤ) / 1000

/-- `Memory.compute_quality_score`: weighted sum of the four sub-metrics,
rounded to 3 decimal places; `weights = none` models Python
`if not weights:` installing the default `{0.25, 0.25, 0.25, 0.25}`. -/
def compute_quality_score (completeness relevance clarity accuracy : ℚ)
    (weights : Option Weights) : ℚ :=
  let w := weights.getD ⟨1/4, 1/4, 1/4, 1/4⟩
  round3 (completeness * w.completeness + relevance * w.relevance
    + clarity * w.clarity + accuracy * w.accuracy)

/-- The `metadata.update({...})` performed by `_process_quality_metrics`
when all four sub-metrics are present. -/
def injectMetrics (md : Metadata) (c r cl a : ℚ) (w : Option Weights) : Metadata :=
  dictSet (dictSet (dictSet (dictSet (dictSet md
    "completeness" (.num c))
    "relevance" (.num r))
    "clarity" (.num cl))
    "accuracy" (.num a))
    "quality" (.num (compute_quality_score c r cl a w))

/-- `Memory._process_quality_metrics`, value level: the dict value it
returns. `metadata = metadata or {}` coincides value-wise with
`metadata.getD []` (both `None` and `{}` yield `{}`). -/
def process_quality_metrics (metadata : Option Metadata)
    (completeness relevance clarity accuracy : Option ℚ)
    (weights : Option Weights) (evaluator_quality : Option ℚ) : Metadata :=
  let md := metadata.getD []
  match completeness, relevance, clarity, accuracy with
  | some c, some r, some cl, some a => injectMetrics md c r cl a weights
  | _, _, _, _ =>
    match evaluator_quality with
    | some e => dictSet md "quality" (.num e)
    | none => md

/-! ### Heap view of `_process_quality_metrics` (Python object identity)

`_process_quality_metrics` mutates its `metadata` argument in place
(`metadata.update(...)`, `metadata["quality"] = ...`) — except that
`metadata = metadata or {}` rebinds the local name to a fresh dict when the
caller passed `None` **or an empty dict** (empty dicts are falsy). To talk
about what the caller's own dict object holds after the call, we give a
second rendering of the same source function over an explicit heap of dict
objects addressed by `Nat`. -/

/-- A heap of Python dict objects, addressed by `Nat`. -/
abbrev Heap := Nat → Metadata

/-- Overwrite the dict object stored at address `a`. -/
def hset (h : Heap) (a : Nat) (d : Metadata) : Heap :=
  fun b => if b = a then d else h b

/-- `Memory._process_quality_metrics`, heap level: `metadata` is the address
of the caller's dict (or `none` for Python `None`); `fresh` is the address
the fresh dict gets when `metadata or {}` allocates one. Returns the new
heap and the address of the dict the function returned. -/
def process_quality_metrics_heap (h : Heap) (fresh : Nat) (metadata : Option Nat)
    (completeness relevance clarity accuracy : Option ℚ)
    (weights : Option Weights) (evaluator_quality : Option ℚ) : Heap × Nat :=
  let ha : Heap × Nat :=
    match metadata with
    | some a => if h a = [] then (hset h fresh [], fresh) else (h, a)
    | none => (hset h fresh [], fresh)
  let h' := ha.1
  let addr := ha.2
  match completeness, relevance, clarity, accuracy with
  | some c, some r, some cl, some a2 =>
    (hset h' addr (injectMetrics (h' addr) c r cl a2 weights), addr)
  | _, _, _, _ =>
    match evaluator_quality with
    | some e => (hset h' addr (dictSet (h' addr) "quality" (.num e)), addr)
    | none => (h', addr)

/-! ### Store operations -/

/-- `Memory._sanitize_metadata`: drop `None` values, keep scalars, stringify
structured values. -/
def sanitize_metadata (md : Metadata) : Metadata :=
  md.filterMap (fun p =>
    match p.2 with
    | .nil => none
    | .str v => some (p.1, .str v)
    | .num v => some (p.1, .num v)
    | .bool v => some (p.1, .bool v)
    | .obj r => some (p.1, .str r))

/-- `Memory.store_short_term`: merge quality metadata, then insert one row
into `short_mem`; any exception from the SQLite block (`writeOk = false`)
is logged and **re-raised** (`raise`). `ident`/`now` stand for
`str(time.time_ns())` / `time.time()`. -/
def store_short_term (m : Memory) (text : String) (metadata : Option Metadata)
    (completeness relevance clarity accuracy : Option ℚ)
    (weights : Option Weights) (evaluator_quality : Option ℚ)
    (ident : String) (now : ℚ) (writeOk : Bool) : Except Unit Memory :=
  let md := process_quality_metrics metadata completeness relevance clarity
    accuracy weights evaluator_quality
  if writeOk then
    .ok { m with short_mem := m.short_mem ++ [⟨ident, text, md, now⟩] }
  else
    .error ()

/-- `Memory.store_long_term`: merge quality metadata, then insert one row into
`long_mem`; on SQLite failure (`sqlOk = false`) the error is logged and the
method **returns** (no exception, no secondary write). On success, if the
rag backend is active the embedding + Chroma `add` runs inside
`try/except` (`backendOk`); a mem0 `add` is likewise swallowed and touches
no local state. -/
def store_long_term (m : Memory) (text : String) (metadata : Option Metadata)
    (completeness relevance clarity accuracy : Option ℚ)
    (weights : Option Weights) (evaluator_quality : Option ℚ)
    (ident : String) (created : ℚ) (sqlOk : Bool) (backendOk : Bool) :
    Except Unit Memory :=
  let md := process_quality_metrics metadata completeness relevance clarity
    accuracy weights evaluator_quality
  if sqlOk then
    let m1 := { m with long_mem := m.long_mem ++ [(⟨ident, text, md, created⟩ : SqlRow)] }
    if m1.use_rag then
      if backendOk then
        .ok { m1 with chroma_docs := m1.chroma_docs ++ [(ident, text, sanitize_metadata md)] }
      else
        .ok m1
    else
      .ok m1
  else
    .ok m

/-- `Memory.store_short_term`, heap level: the quality-metric processing runs
on the heap of dict objects, and the inserted row snapshots the dict value
(`json.dumps(metadata)`). Used to reason about mutation of the caller's
dict. -/
def store_short_term_heap (m : Memory) (h : Heap) (fresh : Nat) (text : String)
    (metadata : Option Nat)
    (completeness relevance clarity accuracy : Option ℚ)
    (weights : Option Weights) (evaluator_quality : Option ℚ)
    (ident : String) (now : ℚ) (writeOk : Bool) :
    Except Unit Memory × Heap × Nat :=
  let ha := process_quality_metrics_heap h fresh metadata completeness relevance
    clarity accuracy weights evaluator_quality
  let h' := ha.1
  let addr := ha.2
  if writeOk then
    (.ok { m with short_mem := m.short_mem ++ [⟨ident, text, h' addr, now⟩] }, h', addr)
  else
    (.error (), h', addr)

/-! ### Search operations -/

/-- `r.get("metadata", {}).get("quality", 0.0)` / `meta.get("quality", 0.0)`:
a missing `quality` key reads as `0.0`. -/
def qualityOf (md : Metadata) : ℚ :=
  match dictGet md "quality" with
  | some (.num v) => v
  | _ => 0

/-- `SELECT id, content, meta FROM short_mem WHERE content LIKE '%q%' LIMIT n`. -/
def localStmRows (m : Memory) (query : String) (limit : Nat) : List SqlRow :=
  (m.short_mem.filter (fun row => likeMatch query row.content)).take limit

/-- The local fallback loop of `search_short_term`: keep rows whose
`quality` metadata passes the floor, as `{id, text, metadata}` dicts. -/
def stmLocalResults (rows : List SqlRow) (min_quality : ℚ) : List SearchRec :=
  rows.filterMap (fun row =>
    if min_quality ≤ qualityOf row.meta then
      some ⟨row.id, row.content, row.meta, none, none⟩
    else none)

/-- `Memory.search_short_term`. The mem0 branch calls the provider with no
`try/except` (a provider exception propagates); the rag branch wraps the
embedding call and Chroma query in `try/except` and returns `[]` on
failure; otherwise the local substring fallback runs. -/
def search_short_term (m : Memory) (query : String) (limit : Nat)
    (min_quality : ℚ) (relevance_cutoff : ℚ) : Except Unit (List SearchRec) :=
  if m.use_mem0 then
    match m.mem0_search query limit with
    | some results =>
      .ok (results.filter (fun r => relevance_cutoff ≤ r.score.getD 1))
    | none => .error ()
  else if m.use_rag then
    match m.chroma_query query limit with
    | some hits =>
      .ok (hits.filterMap (fun hit =>
        if min_quality ≤ qualityOf hit.metadata ∧ relevance_cutoff ≤ 1 - hit.distance then
          some (⟨hit.id, hit.document, hit.metadata, some (1 - hit.distance), none⟩ : SearchRec)
        else none))
    | none => .ok []
  else
    .ok (stmLocalResults (localStmRows m query limit) min_quality)

/-- The ChromaDB part of `search_long_term`'s `found` list: each document
gets the citation suffix appended **unconditionally**, and
`score = 1.0 - distance`; a caught provider failure contributes `[]`. -/
def ltm_backend_found (m : Memory) (query : String) (limit : Nat) : List SearchRec :=
  if m.use_rag then
    match m.chroma_query query limit with
    | some hits =>
      hits.map (fun hit =>
        ⟨hit.id, citeAlways hit.document, hit.metadata, some (1 - hit.distance), none⟩)
    | none => []
  else []

/-- `SELECT id, content, meta, created_at FROM long_mem WHERE content LIKE '%q%' LIMIT n`. -/
def localLtmRows (m : Memory) (query : String) (limit : Nat) : List SqlRow :=
  (m.long_mem.filter (fun row => likeMatch query row.content)).take limit

/-- The result dict `search_long_term` builds from a SQLite row: guarded
citation append, metadata, `created_at`. -/
def sqlToRec (row : SqlRow) : SearchRec :=
  ⟨row.id, citeIfAbsent row.content, row.meta, none, some row.created_at⟩

/-- The SQLite merge loop of `search_long_term`: append each row's record to
`found` unless some record with the same `id` is already present. -/
def mergeSqlRows (found : List SearchRec) : List SqlRow → List SearchRec
  | [] => found
  | row :: rest =>
    if found.any (fun f => f.id == row.id) then
      mergeSqlRows found rest
    else
      mergeSqlRows (found ++ [sqlToRec row]) rest

/-- The tail of `search_long_term`: quality filter only `if min_quality > 0`,
relevance filter only `if relevance_cutoff > 0`, then `results[:limit]`. -/
def applyLtmFilters (results : List SearchRec) (min_quality relevance_cutoff : ℚ)
    (limit : Nat) : List SearchRec :=
  let r1 := if 0 < min_quality then
    results.filter (fun r => min_quality ≤ qualityOf r.metadata)
  else results
  let r2 := if 0 < relevance_cutoff then
    r1.filter (fun r => relevance_cutoff ≤ r.score.getD 1)
  else r1
  r2.take limit

/-- `Memory.search_long_term`. The mem0 branch filters by quality and
**returns immediately** (no `try/except`, no SQLite merge); otherwise the
Chroma results (if rag is active) are merged with the SQLite rows by id and
the quality/relevance/limit filters are applied. -/
def search_long_term (m : Memory) (query : String) (limit : Nat)
    (relevance_cutoff : ℚ) (min_quality : ℚ) : Except Unit (List SearchRec) :=
  if m.use_mem0 then
    match m.mem0_search query limit with
    | some results =>
      .ok (results.filter (fun r => min_quality ≤ qualityOf r.metadata))
    | none => .error ()
  else
    let found := mergeSqlRows (ltm_backend_found m query limit) (localLtmRows m query limit)
    .ok (applyLtmFilters found min_quality relevance_cutoff limit)

/-- `Memory.search_entity`: long-term search with internal limit 20, filtered
to `metadata.category == "entity"`, truncated to the caller's limit. -/
def search_entity (m : Memory) (query : String) (limit : Nat) :
    Except Unit (List SearchRec) :=
  match search_long_term m query 20 0 0 with
  | .ok all_hits =>
    .ok ((all_hits.filter (fun h => dictGet h.metadata "category" = some (.str "entity"))).take limit)
  | .error e => .error e

/-- `Memory.search_user_memory`: mem0 user-scoped search if mem0 is active,
else long-term search with internal limit 20 filtered on
`metadata.user_id == user_id`, truncated to the caller's limit. -/
def search_user_memory (m : Memory) (user_id : String) (query : String)
    (limit : Nat) : Except Unit (List SearchRec) :=
  if m.use_mem0 then
    match m.mem0_search_user query limit user_id with
    | some results => .ok results
    | none => .error ()
  else
    match search_long_term m query 20 0 0 with
    | .ok hits =>
      .ok ((hits.filter (fun h => dictGet h.metadata "user_id" = some (.str user_id))).take limit)
    | .error e => .error e

/-- The filter comprehension of `search_with_quality`. -/
def swqFilter (results : List SearchRec) (min_quality : ℚ) : List SearchRec :=
  results.filter (fun r => min_quality ≤ qualityOf r.metadata)

/-- The `memory_type` literal of `search_with_quality` / `store_quality`. -/
inductive MemoryType where
  | short
  | long
  deriving DecidableEq

/-- `Memory.search_with_quality`: select the partition's search (called with
its default `min_quality = 0`, `relevance_cutoff = 0`), then apply the
quality floor. -/
def search_with_quality (m : Memory) (query : String) (min_quality : ℚ)
    (memory_type : MemoryType) (limit : Nat) : Except Unit (List SearchRec) :=
  let base := match memory_type with
    | .short => search_short_term m query limit 0 0
    | .long => search_long_term m query limit 0 0
  match base with
  | .ok results => .ok (swqFilter results min_quality)
  | .error e => .error e

/-! ### Task finalization -/

/-- A Python value that is either a string or `None`. -/
def optStr : Option String → MetaVal
  | some s => .str s
  | none => .nil

/-- A Python value that is either a structured dict (kept by repr) or `None`. -/
def optObj : Option String → MetaVal
  | some r => .obj r
  | none => .nil

/-- `Memory.finalize_task_output`: always attempt the short-term store (its
exception is caught and logged); additionally attempt the long-term store
iff `quality_score >= threshold` (its exception is likewise caught).
`identS/nowS` and `identL/createdL` are the ids/timestamps of the two
writes, `now` is `stored_at`. -/
def finalize_task_output (m : Memory) (content agent_name : String)
    (quality_score threshold : ℚ) (metrics : Option String)
    (task_id : Option String) (now : ℚ)
    (identS : String) (nowS : ℚ) (identL : String) (createdL : ℚ)
    (shortOk longSqlOk longBackendOk : Bool) : Memory :=
  let metadata : Metadata :=
    [("task_id", optStr task_id), ("agent", .str agent_name),
     ("quality", .num quality_score), ("metrics", optObj metrics),
     ("task_type", .str "output"), ("stored_at", .num now)]
  let m1 := match store_short_term m content (some metadata)
      none none none none none none identS nowS shortOk with
    | .ok m' => m'
    | .error _ => m
  if threshold ≤ quality_score then
    match store_long_term m1 content (some metadata)
        none none none none none none identL createdL longSqlOk longBackendOk with
    | .ok m' => m'
    | .error _ => m1
  else
    m1

/-! ### Context assembler (`build_context_for_task`) -/

/-- Python `content.split("(Memory record:")[0]`: the characters before the
first occurrence of the citation marker. -/
def takeUntilMarker (pat : List Char) : List Char → List Char
  | [] => []
  | c :: cs => if startsWith pat (c :: cs) then [] else c :: takeUntilMarker pat cs

/-- The inner `normalize_content` of `build_context_for_task`: strip the
citation suffix, `strip()`, then keep only non-whitespace characters,
lower-cased. -/
def normalize_content (content : String) : String :=
  let normalized := pyStrip (takeUntilMarker "(Memory record:".data content.data)
  String.mk (normalized.filterMap (fun c =>
    if c.isWhitespace then none else some c.toLower))

/-- Python `content.split()` (split on whitespace runs, dropping empties). -/
def pyWords : List Char → List Char → List (List Char)
  | [], acc => if acc.isEmpty then [] else [acc.reverse]
  | c :: cs, acc =>
    if c.isWhitespace then
      if acc.isEmpty then pyWords cs [] else acc.reverse :: pyWords cs []
    else
      pyWords cs (c :: acc)

/-- Python `' '.join(content.split())`. -/
def squashWs (s : String) : String :=
  String.mk (List.intercalate [' '] (pyWords s.data []))

/-- Python `content.rfind(' ', 0, bound)`: the largest index `< bound` holding
a space, if any. -/
def lastSpaceIdx (cs : List Char) (bound : Nat) : Option Nat :=
  (((cs.take bound).enum.filter (fun p => p.2 == ' ')).map (fun p => p.1)).getLast?

/-- The inner `format_content` of `build_context_for_task`: whitespace
cleanup, keep citation-bearing text verbatim, otherwise truncate at the
last word boundary before `max_len` and append `"..."`. -/
def format_content (content : String) (max_len : Nat) : String :=
  if content = "" then ""
  else
    let content := squashWs content
    if strContains content "(Memory record:" then content
    else if content.data.length ≤ max_len then content
    else
      let truncate_at := (lastSpaceIdx content.data (max_len - 3)).getD (max_len - 3)
      String.mk (content.data.take truncate_at) ++ "..."

/-- The per-hit loop of `add_section`: thread the shared `seen_contents` set
and collect the surviving formatted hits, in order. -/
def dedupFold (seen : List String) : List SearchRec → List String × List String
  | [] => (seen, [])
  | h :: rest =>
    let content := h.text
    if content = "" then dedupFold seen rest
    else
      let formatted :=
        if strContains content "(Memory record:" then content
        else format_content content 150
      let normalized := normalize_content formatted
      if normalized ∈ seen then dedupFold seen rest
      else
        let sr := dedupFold (seen ++ [normalized]) rest
        (sr.1, formatted :: sr.2)

/-- The mutable state of `build_context_for_task`: the output `lines` and the
`seen_contents` deduplication set (shared across all sections). -/
structure CtxState where
  lines : List String
  seen : List String
  deriving DecidableEq

/-- The inner `add_section` of `build_context_for_task`: deduplicate the hits
against the shared set, and if any survive emit a titled, underlined
section with one bullet per entry. -/
def add_section (st : CtxState) (title : String) (hits : List SearchRec) : CtxState :=
  if hits.isEmpty then st
  else
    let sr := dedupFold st.seen hits
    let seen' := sr.1
    let formatted_hits := sr.2
    if formatted_hits.isEmpty then { st with seen := seen' }
    else
      let lines' := st.lines
        ++ (if st.lines.isEmpty then [] else [""])
        ++ [title, String.mk (List.replicate title.data.length '='), ""]
        ++ formatted_hits.map (fun c => " • " ++ c)
      ⟨lines', seen'⟩

/-- `Memory.build_context_for_task`: query string = trimmed concatenation,
four searches capped at `max_items`, sections added in priority order
short-term, long-term, entity, user (the user search and section only when
`user_id` is present), joined with newlines. -/
def build_context_for_task (m : Memory) (task_descr : String)
    (user_id : Option String) (additional : String) (max_items : Nat) :
    Except Unit String := do
  let q := pyStripStr (task_descr ++ " " ++ additional)
  let short_term ← search_short_term m q max_items 0 0
  let long_term ← search_long_term m q max_items 0 0
  let entities ← search_entity m q max_items
  let user_mem ← match user_id with
    | some uid => search_user_memory m uid q max_items
    | none => pure []
  let st : CtxState := ⟨[], []⟩
  let st := add_section st "Short-term Memory Context" short_term
  let st := add_section st "Long-term Memory Context" long_term
  let st := add_section st "Entity Context" entities
  let st := match user_id with
    | some _ => add_section st "User Context" user_mem
    | none => st
  pure (if st.lines.isEmpty then "" else String.intercalate "\n" st.lines)

/-! ### Concrete fixtures for witnesses and counterexamples -/

/-- A provider oracle that always succeeds with no results. -/
def emptyOracle : String → Nat → Option (List SearchRec) := fun _ _ => some []

/-- A `Memory` in the local-fallback configuration (`provider` neither mem0
nor an embedding-enabled rag), with the given table contents. -/
def mkLocalMemory (shortRows longRows : List SqlRow) : Memory where
  use_mem0 := false
  use_rag := false
  short_mem := shortRows
  long_mem := longRows
  chroma_docs := []
  mem0_search := emptyOracle
  mem0_search_user := fun _ _ _ => some []
  chroma_query := fun _ _ => some []

/-- A `Memory` in the mem0 configuration with the given provider oracle and
long-term table. -/
def mkMem0Memory (oracle : String → Nat → Option (List SearchRec))
    (longRows : List SqlRow) : Memory where
  use_mem0 := true
  use_rag := false
  short_mem := []
  long_mem := longRows
  chroma_docs := []
  mem0_search := oracle
  mem0_search_user := fun _ _ _ => some []
  chroma_query := fun _ _ => some []

/-- A `Memory` in the rag (vector) configuration with the given Chroma query
oracle and long-term table. -/
def mkRagMemory (chroma : String → Nat → Option (List ChromaHit))
    (longRows : List SqlRow) : Memory where
  use_mem0 := false
  use_rag := true
  short_mem := []
  long_mem := longRows
  chroma_docs := []
  mem0_search := emptyOracle
  mem0_search_user := fun _ _ _ => some []
  chroma_query := chroma

/-- A mem0-configured memory whose provider returns no results, while the
local `long_mem` table holds a record matching the query `"hello"`. -/
def cex1M : Memory := mkMem0Memory (fun _ _ => some []) [⟨"l1", "hello world", [], 0⟩]

/-- A local-configured memory with one matching `long_mem` row. -/
def wit1M : Memory := mkLocalMemory [] [⟨"l1", "hello world", [], 0⟩]

/-- A local-configured memory with empty tables. -/
def cex2M : Memory := mkLocalMemory [] []

/-- A mem0-configured memory whose provider raises on every search. -/
def cex3M : Memory := mkMem0Memory (fun _ _ => none) []

/-- A rag-configured memory whose Chroma query raises, with one matching
`long_mem` row. -/
def wit3M : Memory := mkRagMemory (fun _ _ => none) [⟨"l1", "hello world", [], 0⟩]

/-- A rag-configured memory whose Chroma query returns a document that
already carries the citation marker. -/
def cex4M : Memory :=
  mkRagMemory (fun _ _ => some [⟨"c1", "x (Memory record: x)", [], 0⟩]) []

/-- A 151-character text: long enough that `format_content` truncates it. -/
def aString : String := String.mk (List.replicate 151 'a')

/-- A local-configured memory holding `aString` raw in `short_mem` and in
`long_mem` (whence its search result carries the citation suffix). -/
def cex5M : Memory := mkLocalMemory [⟨"s1", aString, [], 0⟩] [⟨"l1", aString, [], 0⟩]

/-- A local-configured memory with empty tables (finalization witness). -/
def wit6M : Memory := mkLocalMemory [] []

/-- A local-configured memory whose `long_mem` holds one entity record and
one plain record, both matching the query `"bob"`. -/
def wit7M : Memory := mkLocalMemory []
  [⟨"e1", "Entity Bob(person): engineer | relationships: unit", [("category", .str "entity")], 1⟩,
   ⟨"p1", "Bob wrote a report", [], 2⟩]

/-- The entity records `search_entity wit7M "bob" 5` returns: only the
`category="entity"` record, with its citation suffix. -/
def E7 : List SearchRec :=
  [⟨"e1", citeAlways "Entity Bob(person): engineer | relationships: unit",
    [("category", .str "entity")], none, some 1⟩]

/-- The all-empty heap: every address holds the empty dict. -/
def hEmpty : Heap := fun _ => []

/-- A heap whose address 0 holds a non-empty dict. -/
def h9 : Heap := hset hEmpty 0 [("k", .str "v")]

/-- A local-configured memory whose tables hold a record without a `quality`
metadata key. -/
def wit10M : Memory :=
  mkLocalMemory [⟨"n1", "note text", [("agent", .str "x")], 0⟩]
    [⟨"n1", "note text", [("agent", .str "x")], 0⟩]

/-! ### Helper lemmas: strings -/

theorem startsWith_self_append (p t : List Char) : startsWith p (p ++ t) = true := by
  induction p with
  | nil => rfl
  | cons c cs ih => simp [startsWith, ih]

theorem listContains_nil_pat (b : List Char) : listContains [] b = true := by
  cases b with
  | nil => rfl
  | cons c cs => simp [listContains, startsWith]

theorem listContains_of_append (pat a b : List Char) :
    listContains pat (a ++ (pat ++ b)) = true := by
  induction a with
  | nil =>
    cases pat with
    | nil => simpa using listContains_nil_pat b
    | cons p ps =>
      simp only [List.nil_append, listContains, Bool.or_eq_true]
      exact Or.inl (startsWith_self_append (p :: ps) b)
  | cons c cs ih =>
    cases hp : pat with
    | nil => simpa [hp] using listContains_nil_pat (c :: (cs ++ ([] ++ b)))
    | cons p ps =>
      rw [← hp]
      simp only [List.cons_append, listContains, Bool.or_eq_true]
      exact Or.inr (by simpa using ih)

theorem strData_append (s t : String) : (s ++ t).data = s.data ++ t.data := rfl

theorem strContains_citeAlways (t : String) :
    strContains (citeAlways t) "(Memory record:" = true := by
  show listContains "(Memory record:".data (t ++ " (Memory record: " ++ t ++ ")").data = true
  have h1 : (t ++ " (Memory record: " ++ t ++ ")").data
      = (t.data ++ [' ']) ++ ("(Memory record:".data ++ ([' '] ++ t.data ++ [')'])) := by
    simp [strData_append, List.append_assoc]
  rw [h1]
  exact listContains_of_append _ _ _

theorem citeIfAbsent_idem (t : String) :
    citeIfAbsent (citeIfAbsent t) = citeIfAbsent t := by
  by_cases h : strContains t "(Memory record:" = true
  · simp [citeIfAbsent, h]
  · simp only [citeIfAbsent, Bool.not_eq_true] at h ⊢
    rw [h]
    simp [strContains_citeAlways]

/-! ### Helper lemmas: the dict model -/

theorem dictGet_cons (k' : String) (v' : MetaVal) (rest : Metadata) (k : String) :
    dictGet ((k', v') :: rest) k = if k' = k then some v' else dictGet rest k := by
  by_cases h : k' = k
  · simp [dictGet, List.find?_cons_of_pos, h]
  · rw [dictGet, List.find?_cons_of_neg _ (by simpa using h)]
    simp [dictGet, h]

theorem dictGet_dictSet_self (md : Metadata) (k : String) (v : MetaVal) :
    dictGet (dictSet md k v) k = some v := by
  induction md with
  | nil => simp [dictSet, dictGet_cons, dictGet]
  | cons p rest ih =>
    rcases p with ⟨a, b⟩
    by_cases h : a = k
    · simp [dictSet, h, dictGet_cons]
    · simp [dictSet, h, dictGet_cons, ih]

theorem dictGet_dictSet_ne (md : Metadata) (k k' : String) (v : MetaVal)
    (h : k' ≠ k) : dictGet (dictSet md k v) k' = dictGet md k' := by
  induction md with
  | nil => simp [dictSet, dictGet_cons, dictGet, Ne.symm h]
  | cons p rest ih =>
    rcases p with ⟨a, b⟩
    by_cases hp : a = k
    · subst hp
      simp [dictSet, dictGet_cons, Ne.symm h]
    · simp [dictSet, hp, dictGet_cons, ih]

theorem injectMetrics_quality (md : Metadata) (c r cl a : ℚ) (w : Option Weights) :
    dictGet (injectMetrics md c r cl a w) "quality"
      = some (.num (compute_quality_score c r cl a w)) :=
  dictGet_dictSet_self _ _ _

theorem injectMetrics_completeness (md : Metadata) (c r cl a : ℚ) (w : Option Weights) :
    dictGet (injectMetrics md c r cl a w) "completeness" = some (.num c) := by
  unfold injectMetrics
  rw [dictGet_dictSet_ne _ _ _ _ (by decide), dictGet_dictSet_ne _ _ _ _ (by decide),
    dictGet_dictSet_ne _ _ _ _ (by decide), dictGet_dictSet_ne _ _ _ _ (by decide),
    dictGet_dictSet_self]

theorem injectMetrics_relevance (md : Metadata) (c r cl a : ℚ) (w : Option Weights) :
    dictGet (injectMetrics md c r cl a w) "relevance" = some (.num r) := by
  unfold injectMetrics
  rw [dictGet_dictSet_ne _ _ _ _ (by decide), dictGet_dictSet_ne _ _ _ _ (by decide),
    dictGet_dictSet_ne _ _ _ _ (by decide), dictGet_dictSet_self]

theorem injectMetrics_clarity (md : Metadata) (c r cl a : ℚ) (w : Option Weights) :
    dictGet (injectMetrics md c r cl a w) "clarity" = some (.num cl) := by
  unfold injectMetrics
  rw [dictGet_dictSet_ne _ _ _ _ (by decide), dictGet_dictSet_ne _ _ _ _ (by decide),
    dictGet_dictSet_self]

theorem injectMetrics_accuracy (md : Metadata) (c r cl a : ℚ) (w : Option Weights) :
    dictGet (injectMetrics md c r cl a w) "accuracy" = some (.num a) := by
  unfold injectMetrics
  rw [dictGet_dictSet_ne _ _ _ _ (by decide), dictGet_dictSet_self]

/-! ### Helper lemmas: store and finalize -/

theorem store_long_term_ok_fields (m : Memory) (text : String) (md : Option Metadata)
    (c r cl a : Option ℚ) (w : Option Weights) (eq' : Option ℚ) (ident : String)
    (t : ℚ) (bOk : Bool) :
    ∃ m', store_long_term m text md c r cl a w eq' ident t true bOk = .ok m' ∧
      m'.short_mem = m.short_mem ∧
      m'.long_mem = m.long_mem
        ++ [⟨ident, text, process_quality_metrics md c r cl a w eq', t⟩] := by
  cases hr : m.use_rag <;> cases bOk <;>
    simp only [store_long_term, hr, if_true, if_false, Bool.false_eq_true, ite_true, ite_false] <;>
    exact ⟨_, rfl, rfl, rfl⟩

theorem localLtmRows_nodup (m : Memory) (q : String) (limit : Nat)
    (hnd : (m.long_mem.map SqlRow.id).Nodup) :
    ((localLtmRows m q limit).map SqlRow.id).Nodup := by
  have hsub : List.Sublist (localLtmRows m q limit) m.long_mem :=
    (List.take_sublist _ _).trans (List.filter_sublist _)
  exact hnd.sublist (hsub.map _)

theorem finalize_eq (m : Memory) (content agent : String) (qs th : ℚ)
    (metrics task_id : Option String) (now nowS createdL : ℚ)
    (identS identL : String) (sOk bOk : Bool) :
    finalize_task_output m content agent qs th metrics task_id now
        identS nowS identL createdL sOk true bOk
    = (let fmd : Metadata :=
        [("task_id", optStr task_id), ("agent", .str agent), ("quality", .num qs),
         ("metrics", optObj metrics), ("task_type", .str "output"), ("stored_at", .num now)]
       let m1 := if sOk then
         { m with short_mem := m.short_mem ++ [⟨identS, content, fmd, nowS⟩] } else m
       if th ≤ qs then
         if m.use_rag then
           if bOk then
             { m1 with
                 long_mem := m1.long_mem ++ [⟨identL, content, fmd, createdL⟩]
                 chroma_docs := m1.chroma_docs ++ [(identL, content, sanitize_metadata fmd)] }
           else { m1 with long_mem := m1.long_mem ++ [⟨identL, content, fmd, createdL⟩] }
         else { m1 with long_mem := m1.long_mem ++ [⟨identL, content, fmd, createdL⟩] }
       else m1) := by
  cases sOk <;> by_cases hth : th ≤ qs <;> cases hr : m.use_rag <;> cases bOk <;>
    simp [finalize_task_output, store_short_term, store_long_term, hth, hr,
      process_quality_metrics]

/-! ### Helper lemmas: the SQLite merge loop and result filters -/

theorem mergeSqlRows_extend (rows : List SqlRow) (found : List SearchRec) :
    ∃ t, mergeSqlRows found rows = found ++ t := by
  induction rows generalizing found with
  | nil => exact ⟨[], by simp [mergeSqlRows]⟩
  | cons row rest ih =>
    by_cases h : found.any (fun f => f.id == row.id)
    · obtain ⟨t, ht⟩ := ih found
      exact ⟨t, by simp [mergeSqlRows, h, ht]⟩
    · obtain ⟨t, ht⟩ := ih (found ++ [sqlToRec row])
      refine ⟨sqlToRec row :: t, ?_⟩
      simp only [mergeSqlRows, h, if_false, Bool.false_eq_true]
      rw [ht]
      simp

theorem mergeSqlRows_mem (rows : List SqlRow) :
    ∀ (found : List SearchRec) (row : SqlRow), row ∈ rows →
      (rows.map SqlRow.id).Nodup → (∀ f ∈ found, f.id ≠ row.id) →
      sqlToRec row ∈ mergeSqlRows found rows := by
  induction rows with
  | nil => intro found row hmem; cases hmem
  | cons r rest ih =>
    intro found row hmem hnd hfound
    rcases List.mem_cons.mp hmem with heq | hrest
    · subst heq
      have hany : found.any (fun f => f.id == row.id) = false := by
        simp only [List.any_eq_false]
        intro f hf
        simpa using hfound f hf
      simp only [mergeSqlRows, hany, Bool.false_eq_true, if_false]
      obtain ⟨t, ht⟩ := mergeSqlRows_extend rest (found ++ [sqlToRec row])
      rw [ht]
      simp
    · have hid : r.id ≠ row.id := by
        intro hcontra
        have : row.id ∈ rest.map SqlRow.id := List.mem_map_of_mem SqlRow.id hrest
        rw [← hcontra] at this
        exact (List.nodup_cons.mp hnd).1 this
      have hnd' : (rest.map SqlRow.id).Nodup := (List.nodup_cons.mp hnd).2
      by_cases h : found.any (fun f => f.id == r.id)
      · simp only [mergeSqlRows, h, if_true]
        exact ih found row hrest hnd' hfound
      · simp only [mergeSqlRows, h, Bool.false_eq_true, if_false]
        refine ih (found ++ [sqlToRec r]) row hrest hnd' ?_
        intro f hf
        rcases List.mem_append.mp hf with hl | hr
        · exact hfound f hl
        · rcases List.mem_singleton.mp hr with rfl
          exact hid

theorem mergeSqlRows_length (rows : List SqlRow) (found : List SearchRec) :
    (mergeSqlRows found rows).length ≤ found.length + rows.length := by
  induction rows generalizing found with
  | nil => simp [mergeSqlRows]
  | cons row rest ih =>
    by_cases h : found.any (fun f => f.id == row.id)
    · simp only [mergeSqlRows, h, if_true]
      calc (mergeSqlRows found rest).length ≤ found.length + rest.length := ih found
        _ ≤ found.length + (row :: rest).length := by simp only [List.length_cons]; omega
    · simp only [mergeSqlRows, h, Bool.false_eq_true, if_false]
      calc (mergeSqlRows (found ++ [sqlToRec row]) rest).length
          ≤ (found ++ [sqlToRec row]).length + rest.length := ih _
        _ = found.length + (row :: rest).length := by
          simp only [List.length_append, List.length_cons, List.length_nil]
          omega

theorem applyLtmFilters_id (results : List SearchRec) (mq rc : ℚ) (limit : Nat)
    (hmq : mq ≤ 0) (hrc : rc ≤ 0) (hlen : results.length ≤ limit) :
    applyLtmFilters results mq rc limit = results := by
  have h1 : ¬ (0 < mq) := not_lt.mpr hmq
  have h2 : ¬ (0 < rc) := not_lt.mpr hrc
  simp [applyLtmFilters, h1, h2, List.take_of_length_le hlen]

theorem applyLtmFilters_quality (results : List SearchRec) (mq rc : ℚ)
    (limit : Nat) (r : SearchRec) (hmq : 0 < mq)
    (hr : r ∈ applyLtmFilters results mq rc limit) :
    mq ≤ qualityOf r.metadata := by
  simp only [applyLtmFilters, hmq, if_true] at hr
  have hr2 := List.mem_of_mem_take hr
  by_cases h2 : 0 < rc
  · simp only [h2, if_true] at hr2
    have := (List.mem_filter.mp hr2).1
    exact (of_decide_eq_true (List.mem_filter.mp this).2 : mq ≤ _)
  · simp only [h2, if_false] at hr2
    exact (of_decide_eq_true (List.mem_filter.mp hr2).2 : mq ≤ _)

/-! ### Helper lemmas: the deduplication fold -/

theorem dedupFold_extend (hits : List SearchRec) (seen : List String) :
    ∃ t, (dedupFold seen hits).1 = seen ++ t := by
  induction hits generalizing seen with
  | nil => exact ⟨[], by simp [dedupFold]⟩
  | cons h rest ih =>
    by_cases he : h.text = ""
    · simpa [dedupFold, he] using ih seen
    · set formatted := if strContains h.text "(Memory record:" then h.text
        else format_content h.text 150 with hf
      by_cases hs : normalize_content formatted ∈ seen
      · simpa [dedupFold, he, ← hf, hs] using ih seen
      · obtain ⟨t, ht⟩ := ih (seen ++ [normalize_content formatted])
        refine ⟨normalize_content formatted :: t, ?_⟩
        simp only [dedupFold, he, ← hf, hs, if_false, if_neg he]
        rw [ht]
        simp

theorem dedupFold_fresh (hits : List SearchRec) (seen : List String) :
    ∀ f ∈ (dedupFold seen hits).2,
      normalize_content f ∉ seen ∧ normalize_content f ∈ (dedupFold seen hits).1 := by
  induction hits generalizing seen with
  | nil => simp [dedupFold]
  | cons h rest ih =>
    by_cases he : h.text = ""
    · simpa [dedupFold, he] using ih seen
    · set formatted := if strContains h.text "(Memory record:" then h.text
        else format_content h.text 150 with hf
      by_cases hs : normalize_content formatted ∈ seen
      · simpa [dedupFold, he, ← hf, hs] using ih seen
      · intro f hfmem
        simp only [dedupFold, he, ← hf, hs, if_false, if_neg he] at hfmem ⊢
        rcases List.mem_cons.mp hfmem with heq | hrest
        · subst heq
          refine ⟨hs, ?_⟩
          obtain ⟨t, ht⟩ := dedupFold_extend rest (seen ++ [normalize_content formatted])
          rw [ht]
          simp
        · have := ih (seen ++ [normalize_content formatted]) f hrest
          refine ⟨fun hc => this.1 (List.mem_append_left _ hc), this.2⟩

theorem dedupFold_nodup (hits : List SearchRec) (seen : List String) :
    ((dedupFold seen hits).2.map normalize_content).Nodup := by
  induction hits generalizing seen with
  | nil => simp [dedupFold]
  | cons h rest ih =>
    by_cases he : h.text = ""
    · simpa [dedupFold, he] using ih seen
    · set formatted := if strContains h.text "(Memory record:" then h.text
        else format_content h.text 150 with hf
      by_cases hs : normalize_content formatted ∈ seen
      · simpa [dedupFold, he, ← hf, hs] using ih seen
      · simp only [dedupFold, he, ← hf, hs, if_false, if_neg he, List.map_cons]
        refine List.nodup_cons.mpr ⟨?_, ih (seen ++ [normalize_content formatted])⟩
        intro hc
        rcases List.mem_map.mp hc with ⟨f, hfmem, hfeq⟩
        have := (dedupFold_fresh rest (seen ++ [normalize_content formatted]) f hfmem).1
        rw [hfeq] at this
        exact this (List.mem_append_right _ (List.mem_singleton.mpr rfl))

/-! ## Claim theorems -/

/-- C1, counterexample: with the mem0 backend active, `search_long_term`
returns the provider's results directly and never merges the local
`long_mem` table — here the provider returns nothing while the local table
holds a record matching the query, yet the result is empty. This refutes
the claim that the local table is queried and merged unconditionally for
every vector-or-external configuration. -/
theorem search_long_term_mem0_skips_local_table :
    search_long_term cex1M "hello" 5 0 0 = .ok [] ∧
    cex1M.long_mem = [⟨"l1", "hello world", [], 0⟩] ∧
    likeMatch "hello" "hello world" = true :=
  ⟨rfl, rfl, by decide⟩

/-- C1, amended: in every non-mem0 configuration (so in particular when the
vector backend is active), `search_long_term` queries the backend first
(the merged `found` list extends the backend results), unconditionally
queries the local `long_mem` table, and merges every matching local row
whose id is not already among the backend results; the quality/relevance
filters and the limit truncation are applied after the merge. -/
theorem search_long_term_local_backstop :
    ∀ (m : Memory) (q : String) (limit : Nat) (rc mq : ℚ), m.use_mem0 = false →
      ((m.long_mem.map SqlRow.id).Nodup →
        ∀ row ∈ localLtmRows m q limit,
          (∀ f ∈ ltm_backend_found m q limit, f.id ≠ row.id) →
          sqlToRec row ∈ mergeSqlRows (ltm_backend_found m q limit) (localLtmRows m q limit)) ∧
      (∃ t, mergeSqlRows (ltm_backend_found m q limit) (localLtmRows m q limit)
          = ltm_backend_found m q limit ++ t) ∧
      search_long_term m q limit rc mq
        = .ok (applyLtmFilters
            (mergeSqlRows (ltm_backend_found m q limit) (localLtmRows m q limit))
            mq rc limit) := by
  intro m q limit rc mq hm
  refine ⟨?_, mergeSqlRows_extend _ _, by simp [search_long_term, hm]⟩
  intro hnd row hmem hfresh
  exact mergeSqlRows_mem _ _ row hmem (localLtmRows_nodup m q limit hnd) hfresh

/-- C1, witness: the amended theorem applied to a concrete local-backend
memory with one matching row. -/
theorem search_long_term_local_backstop_witness :
    sqlToRec ⟨"l1", "hello world", [], 0⟩
      ∈ mergeSqlRows (ltm_backend_found wit1M "hello" 5) (localLtmRows wit1M "hello" 5) :=
  (search_long_term_local_backstop wit1M "hello" 5 0 0 rfl).1
    (by decide) ⟨"l1", "hello world", [], 0⟩ (by decide) (by decide)

/-- C2, counterexample: a failing durable-table write in `store_long_term` is
logged and swallowed — the call returns normally (`.ok`, no row stored, no
backend write attempted) instead of propagating an error, while the same
failure in `store_short_term` is re-raised. This refutes the claim that
both store operations propagate durable-write failures. -/
theorem store_long_term_swallows_sqlite_failure :
    store_long_term cex2M "t" none none none none none none none "i1" 0 false true
      = .ok cex2M ∧
    store_short_term cex2M "t" none none none none none none none "i1" 0 false
      = .error () :=
  ⟨rfl, rfl⟩

/-- C2, amended: `store_short_term` raises exactly when the durable write
fails (the durable write succeeding is necessary and sufficient for it to
return normally); `store_long_term` aborts on a failed durable write — no
row is stored and no secondary write is attempted — but returns without
raising, and in fact never raises. -/
theorem store_durable_write_failure_behavior :
    ∀ (m : Memory) (text : String) (md : Option Metadata) (c r cl a : Option ℚ)
      (w : Option Weights) (eq' : Option ℚ) (ident : String) (t : ℚ) (bOk : Bool),
      store_short_term m text md c r cl a w eq' ident t false = .error () ∧
      store_short_term m text md c r cl a w eq' ident t true
        = .ok { m with short_mem := m.short_mem
            ++ [⟨ident, text, process_quality_metrics md c r cl a w eq', t⟩] } ∧
      store_long_term m text md c r cl a w eq' ident t false bOk = .ok m ∧
      ∀ sqlOk : Bool, (store_long_term m text md c r cl a w eq' ident t sqlOk bOk).isOk = true := by
  intro m text md c r cl a w eq' ident t bOk
  refine ⟨rfl, rfl, rfl, ?_⟩
  intro sqlOk
  cases sqlOk
  · rfl
  · obtain ⟨m', hm', -, -⟩ := store_long_term_ok_fields m text md c r cl a w eq' ident t bOk
    rw [hm']
    rfl

/-- C3, counterexample: with the mem0 backend active, both search operations
call the provider outside any `try/except`, so a provider failure
propagates to the caller instead of degrading to remaining sources. -/
theorem search_mem0_failure_propagates :
    search_short_term cex3M "q" 5 0 0 = .error () ∧
    search_long_term cex3M "q" 5 0 0 = .error () :=
  ⟨rfl, rfl⟩

/-- C3, amended: in every non-mem0 configuration, neither search operation
ever raises; in particular when the vector backend is active and its
provider call fails, `search_short_term` logs and returns `[]` and
`search_long_term` logs and returns the results drawn from the local
`long_mem` table alone. With mem0 active the provider exception
propagates (see the counterexample). -/
theorem search_rag_failure_degrades :
    ∀ (m : Memory) (q : String) (limit : Nat) (mq rc : ℚ), m.use_mem0 = false →
      (search_short_term m q limit mq rc).isOk = true ∧
      (search_long_term m q limit rc mq).isOk = true ∧
      (m.use_rag = true → m.chroma_query q limit = none →
        search_short_term m q limit mq rc = .ok [] ∧
        search_long_term m q limit rc mq
          = .ok (applyLtmFilters (mergeSqlRows [] (localLtmRows m q limit)) mq rc limit)) := by
  intro m q limit mq rc hm
  refine ⟨?_, ?_, ?_⟩
  · unfold search_short_term
    simp only [hm, Bool.false_eq_true, if_false]
    cases hr : m.use_rag
    · simp only [hr, Bool.false_eq_true, if_false]
      rfl
    · cases hc : m.chroma_query q limit <;> simp only [hr, if_true, hc] <;> rfl
  · unfold search_long_term
    simp only [hm, Bool.false_eq_true, if_false]
    rfl
  · intro hr hc
    have hback : ltm_backend_found m q limit = [] := by
      simp [ltm_backend_found, hr, hc]
    constructor
    · simp [search_short_term, hm, hr, hc]
    · simp [search_long_term, hm, hback]

/-- C3, witness: the amended theorem applied to a concrete rag-backend
memory whose Chroma query raises: the short search returns `[]` and the
long search returns the local-table results. -/
theorem search_rag_failure_degrades_witness :
    search_short_term wit3M "hello" 5 0 0 = .ok [] ∧
    search_long_term wit3M "hello" 5 0 0
      = .ok (applyLtmFilters (mergeSqlRows [] (localLtmRows wit3M "hello" 5)) 0 0 5) :=
  (search_rag_failure_degrades wit3M "hello" 5 0 0 rfl).2.2 rfl rfl

/-- C4, counterexample: the vector-backend path of `search_long_term`
appends the citation suffix unconditionally, so a document that already
carries the citation marker is double-cited — the append logic on that
path is not idempotent and does not leave already-marked text unchanged. -/
theorem vector_citation_double_append :
    search_long_term cex4M "q" 5 0 0
      = .ok [⟨"c1", citeAlways "x (Memory record: x)", [], some 1, none⟩] ∧
    strContains "x (Memory record: x)" "(Memory record:" = true ∧
    citeAlways "x (Memory record: x)" ≠ "x (Memory record: x)" := by
  refine ⟨?_, by decide, by decide⟩
  simp [search_long_term, cex4M, mkRagMemory, ltm_backend_found, localLtmRows,
    mergeSqlRows, applyLtmFilters, citeAlways]

/-- C4, amended: the citation append of the **local-table** path of
`search_long_term` (used via `sqlToRec`) is idempotent — it appends the
suffix exactly once and leaves a text already containing the marker
unchanged; the vector path appends unconditionally (see the
counterexample). -/
theorem local_citation_idempotent :
    ∀ t : String,
      citeIfAbsent (citeIfAbsent t) = citeIfAbsent t ∧
      (strContains t "(Memory record:" = true → citeIfAbsent t = t) ∧
      ∀ row : SqlRow, (sqlToRec row).text = citeIfAbsent row.content := by
  intro t
  refine ⟨citeIfAbsent_idem t, ?_, fun _ => rfl⟩
  intro h
  simp [citeIfAbsent, h]

/-- C4, witness: the amended theorem applied to a concrete already-cited
text, which the guarded append leaves unchanged. -/
theorem local_citation_idempotent_witness :
    citeIfAbsent "x (Memory record: x)" = "x (Memory record: x)" :=
  (local_citation_idempotent "x (Memory record: x)").2.1 (by decide)

set_option maxRecDepth 10000 in
/-- C5, counterexample: the deduplication set compares texts normalized
**after** formatting/truncation. A 151-character plain text is truncated
in the short-term section, while its citation-bearing duplicate in the
long-term section is kept verbatim; the two section texts are identical
after stripping the citation suffix, whitespace and case (first
conjunct), yet the built context contains a bullet for each — two
occurrences, not one. -/
theorem build_context_truncation_escapes_dedup :
    normalize_content aString = normalize_content (citeAlways aString) ∧
    build_context_for_task cex5M "aaa" none "" 3 =
      .ok ("Short-term Memory Context\n" ++ String.mk (List.replicate 25 '=') ++ "\n\n • "
        ++ String.mk (List.replicate 147 'a') ++ "...\n\n"
        ++ "Long-term Memory Context\n" ++ String.mk (List.replicate 24 '=') ++ "\n\n • "
        ++ citeAlways aString) := by
  exact ⟨rfl, by rfl⟩

/-- C5, amended: the deduplication set is shared across the four sections in
their fixed priority order: each section's surviving entries have
normalized forms not seen in any earlier section (so the first,
higher-priority occurrence wins), every emitted entry's normalized form is
recorded for the later sections, and no section emits two entries with the
same normalized form. Deduplication compares the **formatted** texts, so
two copies that normalize identically before formatting can both appear
when one of them is truncated (see the counterexample). -/
theorem dedup_shared_across_sections :
    ∀ (seen : List String) (hits : List SearchRec),
      (∃ t, (dedupFold seen hits).1 = seen ++ t) ∧
      (∀ f ∈ (dedupFold seen hits).2,
        normalize_content f ∉ seen ∧ normalize_content f ∈ (dedupFold seen hits).1) ∧
      ((dedupFold seen hits).2.map normalize_content).Nodup ∧
      (∀ (st : CtxState) (title : String),
        (add_section st title hits).seen = (dedupFold st.seen hits).1) := by
  intro seen hits
  refine ⟨dedupFold_extend hits seen, dedupFold_fresh hits seen, dedupFold_nodup hits seen, ?_⟩
  intro st title
  by_cases h : hits.isEmpty = true
  · have hnil : hits = [] := by
      cases hits
      · rfl
      · cases h
    subst hnil
    simp [add_section, dedupFold]
  · simp only [add_section, h, if_false]
    split_ifs <;> first | rfl | contradiction

/-- C5, witness: the amended theorem applied to a concrete section: the
emitted entry's normalized form is recorded in the shared set. -/
theorem dedup_shared_across_sections_witness :
    normalize_content "abc" ∈ (dedupFold [] [⟨"1", "abc", [], none, none⟩]).1 :=
  ((dedup_shared_across_sections [] [⟨"1", "abc", [], none, none⟩]).2.1 "abc" (by decide)).2

/-- C6: `finalize_task_output` always attempts the short-term store (the row
appears exactly when that write succeeds), attempts the long-term store
iff `quality_score ≥ threshold` (with a succeeding durable write the row
appears iff the threshold is met, and is absent below it), and a failing
short-term store does not change the long-term outcome. -/
theorem finalize_task_output_threshold :
    ∀ (m : Memory) (content agent : String) (qs th : ℚ) (metrics task_id : Option String)
      (now nowS createdL : ℚ) (identS identL : String) (shortOk bOk : Bool),
      (finalize_task_output m content agent qs th metrics task_id now
          identS nowS identL createdL shortOk true bOk).short_mem
        = (if shortOk then m.short_mem ++ [⟨identS, content,
            [("task_id", optStr task_id), ("agent", .str agent), ("quality", .num qs),
             ("metrics", optObj metrics), ("task_type", .str "output"),
             ("stored_at", .num now)], nowS⟩] else m.short_mem) ∧
      (th ≤ qs →
        (finalize_task_output m content agent qs th metrics task_id now
            identS nowS identL createdL shortOk true bOk).long_mem
          = m.long_mem ++ [⟨identL, content,
              [("task_id", optStr task_id), ("agent", .str agent), ("quality", .num qs),
               ("metrics", optObj metrics), ("task_type", .str "output"),
               ("stored_at", .num now)], createdL⟩]) ∧
      (qs < th →
        (finalize_task_output m content agent qs th metrics task_id now
            identS nowS identL createdL shortOk true bOk).long_mem = m.long_mem) ∧
      (finalize_task_output m content agent qs th metrics task_id now
          identS nowS identL createdL false true bOk).long_mem
        = (finalize_task_output m content agent qs th metrics task_id now
            identS nowS identL createdL true true bOk).long_mem := by
  intro m content agent qs th metrics task_id now nowS createdL identS identL shortOk bOk
  refine ⟨?_, ?_, ?_, ?_⟩
  · rw [finalize_eq]
    cases shortOk <;> by_cases hth : th ≤ qs <;> simp [hth] <;> split_ifs <;> rfl
  · intro hth
    rw [finalize_eq]
    cases shortOk <;> simp [hth] <;> split_ifs <;> rfl
  · intro hlt
    have hth : ¬ th ≤ qs := not_le.mpr hlt
    rw [finalize_eq]
    cases shortOk <;> simp [hth]
  · rw [finalize_eq, finalize_eq]
    by_cases hth : th ≤ qs <;> simp [hth] <;> split_ifs <;> rfl

/-- C6, witness: with threshold 0.7, a score of 0.8 stores both records
while a score of 0.5 stores only the short-term one. -/
theorem finalize_task_output_threshold_witness :
    (finalize_task_output wit6M "out" "ag" (8/10) (7/10) none none 5
        "s1" 5 "l1" 5 true true true).long_mem
      = wit6M.long_mem ++ [⟨"l1", "out",
          [("task_id", optStr none), ("agent", .str "ag"), ("quality", .num (8/10)),
           ("metrics", optObj none), ("task_type", .str "output"),
           ("stored_at", .num 5)], 5⟩] ∧
    (finalize_task_output wit6M "out" "ag" (5/10) (7/10) none none 5
        "s1" 5 "l1" 5 true true true).long_mem = wit6M.long_mem ∧
    (finalize_task_output wit6M "out" "ag" (8/10) (7/10) none none 5
        "s1" 5 "l1" 5 true true true).short_mem
      = wit6M.short_mem ++ [⟨"s1", "out",
          [("task_id", optStr none), ("agent", .str "ag"), ("quality", .num (8/10)),
           ("metrics", optObj none), ("task_type", .str "output"),
           ("stored_at", .num 5)], 5⟩] := by
  refine ⟨?_, ?_, ?_⟩
  · exact (finalize_task_output_threshold wit6M "out" "ag" (8/10) (7/10) none none 5
      5 5 "s1" "l1" true true).2.1 (by norm_num)
  · exact (finalize_task_output_threshold wit6M "out" "ag" (5/10) (7/10) none none 5
      5 5 "s1" "l1" true true).2.2.1 (by norm_num)
  · have := (finalize_task_output_threshold wit6M "out" "ag" (8/10) (7/10) none none 5
      5 5 "s1" "l1" true true).1
    simpa using this

/-- C7: every record returned by `search_entity` carries
`category = "entity"` metadata, even when the long-term store also holds
matching non-entity records; the search delegates to `search_long_term`
with internal limit 20, filters client-side, and truncates to the caller's
limit. -/
theorem search_entity_isolation :
    ∀ (m : Memory) (q : String) (limit : Nat) (ents : List SearchRec),
      search_entity m q limit = .ok ents →
      (∀ r ∈ ents, dictGet r.metadata "category" = some (.str "entity")) ∧
      ents.length ≤ limit ∧
      ∃ allHits, search_long_term m q 20 0 0 = .ok allHits ∧ ∀ r ∈ ents, r ∈ allHits := by
  intro m q limit ents hok
  unfold search_entity at hok
  cases hlt : search_long_term m q 20 0 0 with
  | error e =>
    rw [hlt] at hok
    cases hok
  | ok allHits =>
    rw [hlt] at hok
    simp only [Except.ok.injEq] at hok
    subst hok
    refine ⟨?_, List.length_take_le _ _, allHits, rfl, ?_⟩
    · intro r hr
      exact of_decide_eq_true (List.mem_filter.mp (List.mem_of_mem_take hr)).2
    · intro r hr
      exact (List.mem_filter.mp (List.mem_of_mem_take hr)).1

/-- C7, witness: on a store holding one entity record and one plain record
both matching the query, `search_entity` returns only the entity record. -/
theorem search_entity_isolation_witness :
    (∀ r ∈ E7, dictGet r.metadata "category" = some (.str "entity")) ∧
    E7.length ≤ 5 ∧
    ∃ allHits, search_long_term wit7M "bob" 20 0 0 = .ok allHits ∧ ∀ r ∈ E7, r ∈ allHits :=
  search_entity_isolation wit7M "bob" 5 E7 (by rfl)

/-- C8: with no explicit weights, `compute_quality_score` on sub-metrics in
`[0,1]` is the arithmetic mean of the four values rounded to 3 decimal
places; with an explicit full weights dict it is the weighted sum rounded
to 3 decimal places. (The embedding is a pure function, as is the
source's: it only reads its arguments.) -/
theorem compute_quality_score_mean :
    ∀ c r cl a : ℚ, 0 ≤ c → c ≤ 1 → 0 ≤ r → r ≤ 1 → 0 ≤ cl → cl ≤ 1 → 0 ≤ a → a ≤ 1 →
      compute_quality_score c r cl a none = round3 ((c + r + cl + a) / 4) ∧
      ∀ w : Weights, compute_quality_score c r cl a (some w)
        = round3 (c * w.completeness + r * w.relevance
            + cl * w.clarity + a * w.accuracy) := by
  intro c r cl a _ _ _ _ _ _ _ _
  constructor
  · show round3 (c * (1/4) + r * (1/4) + cl * (1/4) + a * (1/4)) = _
    congr 1
    ring
  · intro w
    rfl

/-- C8, witness: the mean property evaluated at `(1, 1/2, 0, 3/4)`. -/
theorem compute_quality_score_mean_witness :
    compute_quality_score 1 (1/2) 0 (3/4) none = round3 ((1 + 1/2 + 0 + 3/4) / 4) :=
  (compute_quality_score_mean 1 (1/2) 0 (3/4) (by norm_num) (by norm_num) (by norm_num)
    (by norm_num) (by norm_num) (by norm_num) (by norm_num) (by norm_num)).1

/-- C9, counterexample: a caller-supplied **empty** dict is falsy, so
`metadata = metadata or {}` rebinds to a fresh dict (address `fresh = 1`);
the quality key is injected into the fresh dict and the caller's own dict
at address 0 stays empty — a non-None metadata dict that is **not**
mutated, refuting the claim as universally stated. -/
theorem store_short_term_empty_dict_not_mutated :
    (store_short_term_heap cex2M hEmpty 1 "t" (some 0) none none none none none
        (some (9/10)) "i1" 0 true).2.2 = 1 ∧
    (store_short_term_heap cex2M hEmpty 1 "t" (some 0) none none none none none
        (some (9/10)) "i1" 0 true).2.1 0 = [] ∧
    dictGet ((store_short_term_heap cex2M hEmpty 1 "t" (some 0) none none none none none
        (some (9/10)) "i1" 0 true).2.1 0) "quality" = none :=
  ⟨rfl, rfl, rfl⟩

/-- C9, amended: when the caller passes a non-None, **non-empty** metadata
dict to `store_short_term` together with quality inputs, the caller's own
dict object is mutated in place: after the call the dict at the caller's
address holds the injected `quality` key (and, on the sub-metrics path,
the four sub-metric keys); the returned dict is the caller's object, not a
copy. An empty dict is replaced by a fresh one and left untouched (see
the counterexample). -/
theorem store_short_term_mutates_caller_dict :
    ∀ (m : Memory) (h : Heap) (fresh a : Nat) (text ident : String) (now : ℚ)
      (c r cl a2 : ℚ) (w : Option Weights) (e : ℚ) (wOk : Bool), h a ≠ [] →
      ((store_short_term_heap m h fresh text (some a) (some c) (some r) (some cl)
          (some a2) w none ident now wOk).2.2 = a ∧
       (store_short_term_heap m h fresh text (some a) (some c) (some r) (some cl)
          (some a2) w none ident now wOk).2.1 a = injectMetrics (h a) c r cl a2 w ∧
       dictGet ((store_short_term_heap m h fresh text (some a) (some c) (some r) (some cl)
          (some a2) w none ident now wOk).2.1 a) "quality"
         = some (.num (compute_quality_score c r cl a2 w)) ∧
       dictGet ((store_short_term_heap m h fresh text (some a) (some c) (some r) (some cl)
          (some a2) w none ident now wOk).2.1 a) "completeness" = some (.num c) ∧
       dictGet ((store_short_term_heap m h fresh text (some a) (some c) (some r) (some cl)
          (some a2) w none ident now wOk).2.1 a) "relevance" = some (.num r) ∧
       dictGet ((store_short_term_heap m h fresh text (some a) (some c) (some r) (some cl)
          (some a2) w none ident now wOk).2.1 a) "clarity" = some (.num cl) ∧
       dictGet ((store_short_term_heap m h fresh text (some a) (some c) (some r) (some cl)
          (some a2) w none ident now wOk).2.1 a) "accuracy" = some (.num a2)) ∧
      ((store_short_term_heap m h fresh text (some a) none none none none none
          (some e) ident now wOk).2.2 = a ∧
       dictGet ((store_short_term_heap m h fresh text (some a) none none none none none
          (some e) ident now wOk).2.1 a) "quality" = some (.num e)) := by
  intro m h fresh a text ident now c r cl a2 w e wOk hne
  have key : ∀ (md : Option Nat) (co re clo ac : Option ℚ) (ww : Option Weights)
      (ev : Option ℚ),
      (store_short_term_heap m h fresh text md co re clo ac ww ev ident now wOk).2
        = process_quality_metrics_heap h fresh md co re clo ac ww ev := by
    intro md co re clo ac ww ev
    cases wOk <;> rfl
  have hph1 : process_quality_metrics_heap h fresh (some a) (some c) (some r) (some cl)
      (some a2) w none = (hset h a (injectMetrics (h a) c r cl a2 w), a) := by
    simp [process_quality_metrics_heap, hne]
  have hph2 : process_quality_metrics_heap h fresh (some a) none none none none none
      (some e) = (hset h a (dictSet (h a) "quality" (.num e)), a) := by
    simp [process_quality_metrics_heap, hne]
  have k1 := key (some a) (some c) (some r) (some cl) (some a2) w none
  have k2 := key (some a) none none none none none (some e)
  rw [hph1] at k1
  rw [hph2] at k2
  have h1a : (store_short_term_heap m h fresh text (some a) (some c) (some r) (some cl)
      (some a2) w none ident now wOk).2.1 a = injectMetrics (h a) c r cl a2 w := by
    rw [k1]
    simp [hset]
  have h2a : (store_short_term_heap m h fresh text (some a) none none none none none
      (some e) ident now wOk).2.1 a = dictSet (h a) "quality" (.num e) := by
    rw [k2]
    simp [hset]
  refine ⟨⟨by rw [k1], h1a, ?_, ?_, ?_, ?_, ?_⟩, by rw [k2], ?_⟩
  · rw [h1a, injectMetrics_quality]
  · rw [h1a, injectMetrics_completeness]
  · rw [h1a, injectMetrics_relevance]
  · rw [h1a, injectMetrics_clarity]
  · rw [h1a, injectMetrics_accuracy]
  · rw [h2a, dictGet_dictSet_self]

/-- C9, witness: the amended theorem applied to a heap whose address 0 holds
a non-empty dict: the caller's dict gains the `quality` key in place. -/
theorem store_short_term_mutates_caller_dict_witness :
    dictGet ((store_short_term_heap cex2M h9 1 "t" (some 0) none none none none none
        (some (9/10)) "i1" 0 true).2.1 0) "quality" = some (.num (9/10)) :=
  (store_short_term_mutates_caller_dict cex2M h9 1 0 "t" "i1" 0 1 1 1 1 none (9/10) true
    (by simp [h9, hset, hEmpty])).2.2

/-- C10: in each quality-floor filter — the local path of
`search_short_term`, the post-merge filter of `search_long_term`, and
`search_with_quality` — a record whose metadata lacks the `quality` key
reads as quality `0.0`: it passes the filter iff the floor is at most 0,
so every strictly positive floor drops it. -/
theorem missing_quality_treated_as_zero :
    (∀ md : Metadata, dictGet md "quality" = none → qualityOf md = 0) ∧
    (∀ (rows : List SqlRow) (mq : ℚ) (row : SqlRow), row ∈ rows →
      dictGet row.meta "quality" = none →
      ((mq ≤ 0 → (⟨row.id, row.content, row.meta, none, none⟩ : SearchRec)
          ∈ stmLocalResults rows mq) ∧
       (0 < mq → (⟨row.id, row.content, row.meta, none, none⟩ : SearchRec)
          ∉ stmLocalResults rows mq))) ∧
    (∀ (m : Memory) (q : String) (limit : Nat) (mq : ℚ) (row : SqlRow),
      m.use_mem0 = false → m.use_rag = false → (m.long_mem.map SqlRow.id).Nodup →
      row ∈ localLtmRows m q limit → dictGet row.meta "quality" = none →
      (search_long_term m q limit 0 mq
         = .ok (applyLtmFilters (mergeSqlRows [] (localLtmRows m q limit)) mq 0 limit) ∧
       (mq ≤ 0 → sqlToRec row
          ∈ applyLtmFilters (mergeSqlRows [] (localLtmRows m q limit)) mq 0 limit) ∧
       (0 < mq → sqlToRec row
          ∉ applyLtmFilters (mergeSqlRows [] (localLtmRows m q limit)) mq 0 limit))) ∧
    (∀ (rs : List SearchRec) (mq : ℚ) (r : SearchRec), r ∈ rs →
      dictGet r.metadata "quality" = none →
      ((mq ≤ 0 → r ∈ swqFilter rs mq) ∧ (0 < mq → r ∉ swqFilter rs mq))) := by
  have hq0 : ∀ md : Metadata, dictGet md "quality" = none → qualityOf md = 0 := by
    intro md hmd
    simp [qualityOf, hmd]
  refine ⟨hq0, ?_, ?_, ?_⟩
  · intro rows mq row hmem hq
    constructor
    · intro hle
      refine List.mem_filterMap.mpr ⟨row, hmem, ?_⟩
      rw [if_pos (by rw [hq0 row.meta hq]; exact hle)]
    · intro hlt hmem2
      obtain ⟨row', hrow', hsome⟩ := List.mem_filterMap.mp hmem2
      by_cases hc : mq ≤ qualityOf row'.meta
      · rw [if_pos hc] at hsome
        have hmeta : row'.meta = row.meta := by
          simpa using congrArg SearchRec.metadata (Option.some.inj hsome)
        rw [hmeta, hq0 row.meta hq] at hc
        exact absurd hc (not_le.mpr hlt)
      · rw [if_neg hc] at hsome
        cases hsome
  · intro m q limit mq row hm hr hnd hmem hq
    have hback : ltm_backend_found m q limit = [] := by
      simp [ltm_backend_found, hr]
    refine ⟨by simp [search_long_term, hm, hback], ?_, ?_⟩
    · intro hle
      have hlen : (mergeSqlRows [] (localLtmRows m q limit)).length ≤ limit := by
        have h1 := mergeSqlRows_length (localLtmRows m q limit) []
        have h2 : (localLtmRows m q limit).length ≤ limit := by
          simpa [localLtmRows] using List.length_take_le limit
            (m.long_mem.filter (fun row => likeMatch q row.content))
        simpa using le_trans h1 (by simpa using h2)
      rw [applyLtmFilters_id _ _ _ _ hle le_rfl hlen]
      exact mergeSqlRows_mem _ [] row hmem (localLtmRows_nodup m q limit hnd) (by simp)
    · intro hlt hmem2
      have := applyLtmFilters_quality _ _ _ _ _ hlt hmem2
      rw [show (sqlToRec row).metadata = row.meta from rfl, hq0 row.meta hq] at this
      exact absurd this (not_le.mpr hlt)
  · intro rs mq r hmem hq
    constructor
    · intro hle
      refine List.mem_filter.mpr ⟨hmem, ?_⟩
      rw [hq0 r.metadata hq]
      exact decide_eq_true hle
    · intro hlt hmem2
      have := (List.mem_filter.mp hmem2).2
      rw [hq0 r.metadata hq] at this
      exact absurd (of_decide_eq_true this) (not_le.mpr hlt)

/-- C10, witness: on a record stored without quality metadata, floor 0 keeps
it and floor 1/2 drops it, through `search_long_term`'s filter. -/
theorem missing_quality_treated_as_zero_witness :
    sqlToRec ⟨"n1", "note text", [("agent", MetaVal.str "x")], 0⟩
      ∈ applyLtmFilters (mergeSqlRows [] (localLtmRows wit10M "note" 5)) 0 0 5 ∧
    sqlToRec ⟨"n1", "note text", [("agent", MetaVal.str "x")], 0⟩
      ∉ applyLtmFilters (mergeSqlRows [] (localLtmRows wit10M "note" 5)) (1/2) 0 5 := by
  constructor
  · exact (missing_quality_treated_as_zero.2.2.1 wit10M "note" 5 0
      ⟨"n1", "note text", [("agent", MetaVal.str "x")], 0⟩ rfl rfl (by decide)
      (by decide) (by decide)).2.1 le_rfl
  · exact (missing_quality_treated_as_zero.2.2.1 wit10M "note" 5 (1/2)
      ⟨"n1", "note text", [("agent", MetaVal.str "x")], 0⟩ rfl rfl (by decide)
      (by decide) (by decide)).2.2 (by norm_num)

end PraisonMem
